import Mathlib

/-!
Shallow embedding of `src/neo/rawio/neuralynxrawio.py` (class `NeuralynxRawIO`):
gap detection and segmentation over NCS block records, segment attribute
computation, cross-channel consistency checks, and the chunked signal reader.

Modeling conventions:
* machine integers are `Nat`/`Int`, with an explicit `% 2 ^ 64` where uint64
  wraparound matters (`np.diff` on the uint64 timestamp column);
* Python floats (sampling rate, times in seconds) are modeled as exact
  rationals `ℚ`;
* `assert` failures and raised exceptions are modeled with `Except NeoError`;
* numpy arrays / memmap record arrays are modeled as Lean lists, and a numpy
  2-D chunk of shape `(rows, cols)` is modeled column-by-column as a list of
  `cols` columns, each a list of `rows` values;
* object attributes that a code path may leave unassigned (Python would raise
  `AttributeError` on reading them) are modeled as `Option` fields, `none`
  meaning "never assigned".
-/

/-- `BLOCK_SIZE = 512`, number of samples per signal block (line 35). -/
def BLOCK_SIZE : Nat := 512

/-- `HEADER_SIZE = 2 ** 14`, byte length of the textual file header (line 36). -/
def HEADER_SIZE : Nat := 2 ^ 14

/-- One NCS block record, mirroring `ncs_dtype` (lines 374-379):
`timestamp` uint64, `channel` uint32, `sample_rate` uint32, `nb_valid` uint32
and a fixed-capacity `samples` payload of `BLOCK_SIZE` int16 values. -/
structure NcsRecord where
  timestamp : Nat
  channel : Nat
  sample_rate : Nat
  nb_valid : Nat
  samples : List Int
  deriving Repr, DecidableEq, Inhabited

/-- Errors raised by the embedded code paths: failed `assert` statements map to
`consistencyError` with the assert's message, reading a never-assigned object
attribute maps to `attributeError`, out-of-bounds read requests map to
`rangeError`, and `NotImplementedError` stubs map to `unsupportedFeature`. -/
inductive NeoError where
  | consistencyError : String → NeoError
  | attributeError : String → NeoError
  | rangeError : NeoError
  | unsupportedFeature : NeoError
  deriving Repr, DecidableEq

/-- Python `int()` applied to a (finite) numeric value: truncation toward zero. -/
def pyInt (q : ℚ) : Int := if q < 0 then -Int.floor (-q) else Int.floor q

/-- `good_delta = int(BLOCK_SIZE * 1e6 / self._sigs_sampling_rate)` (line 218).
The Python float division is modeled as exact rational division followed by
`pyInt` truncation. -/
def good_delta (rate : ℚ) : Int := pyInt ((BLOCK_SIZE : ℚ) * 1000000 / rate)

/-- uint64 subtraction `a - b` with wraparound, as performed elementwise by
`np.diff` on the uint64 `timestamp` column. Faithful for `a b < 2 ^ 64`. -/
def sub64 (a b : Nat) : Nat := (a + 2 ^ 64 - b % 2 ^ 64) % 2 ^ 64

/-- Lines 226-228: `deltas0 = np.diff(timestamps0)` followed by
`gap_indexes, = np.nonzero(deltas0 != good_delta)`. `np.nonzero` returns the
indexes in ascending order, here the ascending filter over `0 .. len - 2`. -/
def detect_gap_indexes (gd : Int) (ts : List Nat) : List Nat :=
  (List.range (ts.length - 1)).filter fun i =>
    ((sub64 (ts.getD (i + 1) 0) (ts.getD i 0) : Int) != gd)

/-- Line 230: `gap_bounds = [0] + (gap_indexes + 1).tolist() + [data0.size]`. -/
def gap_bounds (gaps : List Nat) (n : Nat) : List Nat :=
  0 :: (gaps.map (· + 1) ++ [n])

/-- The consecutive pairs `(gap_bounds[i], gap_bounds[i+1])` used as the
half-open record ranges of the segments (lines 243-245). -/
def segment_ranges (bounds : List Nat) : List (Nat × Nat) :=
  bounds.zip bounds.tail

/-- Python list/array slice `l[a:b]` for `0 ≤ a, b`: clamps at the length. -/
def listSlice {α : Type} (l : List α) (a b : Nat) : List α :=
  (l.drop a).take (b - a)

/-- `data[i]['timestamp']` (in range under the hypotheses of every use). -/
def getTs (data : List NcsRecord) (i : Nat) : Nat :=
  (data.getD i default).timestamp

/-- Left-to-right effectful map over `Except`: stops at the first error, as the
Python `for` loops containing `assert` statements do. -/
def mapExcept {α β ε : Type} (f : α → Except ε β) : List α → Except ε (List β)
  | [] => .ok []
  | a :: l =>
    match f a with
    | .error e => .error e
    | .ok b =>
      match mapExcept f l with
      | .error e => .error e
      | .ok bs => .ok (b :: bs)

/-- Lines 240-251, one iteration of the per-channel loop of `read_nsc_files`:
check the record count against the reference channel (line 241), then for each
segment range check first/last timestamps against the reference (lines
247-248) and cut the channel's slice of records (line 250). -/
def process_channel (data0 : List NcsRecord) (ranges : List (Nat × Nat))
    (data : List NcsRecord) : Except NeoError (List (List NcsRecord)) :=
  if data.length ≠ data0.length then
    .error (.consistencyError "NSC files do not have the same data length")
  else
    mapExcept (fun r =>
      if getTs data r.1 ≠ getTs data0 r.1 then
        .error (.consistencyError "NSC files do not have the same gaps")
      else if getTs data (r.2 - 1) ≠ getTs data0 (r.2 - 1) then
        .error (.consistencyError "NSC files do not have the same gaps")
      else .ok (listSlice data r.1 r.2)) ranges

/-- Line 254: per segment, `t_start = subdata[0]['timestamp'] / 1e6`. -/
def t_start_of (data : List NcsRecord) (ranges : List (Nat × Nat)) : List ℚ :=
  ranges.map fun r => ((listSlice data r.1 r.2).headI.timestamp : ℚ) / 1000000

/-- Line 256: per segment,
`t_stop = subdata[-1]['timestamp'] / 1e6 + BLOCK_SIZE / sampling_rate`. -/
def t_stop_of (data : List NcsRecord) (ranges : List (Nat × Nat)) (rate : ℚ) :
    List ℚ :=
  ranges.map fun r =>
    (((listSlice data r.1 r.2).getLast?.getD default).timestamp : ℚ) / 1000000
      + (BLOCK_SIZE : ℚ) / rate

/-- Line 258: per segment, `length = subdata.size * BLOCK_SIZE`. -/
def lengths_of (data : List NcsRecord) (ranges : List (Nat × Nat)) : List Nat :=
  ranges.map fun r => (listSlice data r.1 r.2).length * BLOCK_SIZE

/-- The attributes `read_nsc_files` stores on `self`. The early return for an
empty channel set (lines 214-216) assigns only `_nb_segment`, leaving the four
other attributes unassigned (`none`). -/
structure NscState where
  nb_segment : Nat
  sigs_memmap : Option (List (List (Nat × List NcsRecord)))
  sigs_t_start : Option (List ℚ)
  sigs_t_stop : Option (List ℚ)
  sigs_length : Option (List Nat)
  deriving Repr, DecidableEq

/-- `read_nsc_files` (lines 196-259). Input: the ordered
`chan_id → decoded record array` association (the content of
`self.nsc_filenames` after memmap decoding; the byte-level decoding itself is
the external BlockRecordDecoder), the shared sampling rate, and the optional
cached `gap_indexes`. The reference channel is the first entry. -/
def read_nsc_files (nsc_files : List (Nat × List NcsRecord)) (rate : ℚ)
    (gap_indexes : Option (List Nat)) : Except NeoError NscState :=
  if nsc_files.length = 0 then
    .ok ⟨1, none, none, none, none⟩
  else
    let chan_id0 := (nsc_files.headI).1
    let data0 := (nsc_files.headI).2
    let gaps :=
      match gap_indexes with
      | none => detect_gap_indexes (good_delta rate) (data0.map NcsRecord.timestamp)
      | some g => g
    let bounds := gap_bounds gaps data0.length
    let nb_segment := bounds.length - 1
    let ranges := segment_ranges bounds
    match mapExcept (fun ch => process_channel data0 ranges ch.2) nsc_files with
    | .error e => .error e
    | .ok chanSubs =>
      let tchans := nsc_files.filter fun ch => ch.1 == chan_id0
      .ok ⟨nb_segment,
           some ((List.range nb_segment).map fun s =>
             (nsc_files.zip chanSubs).map fun p => (p.1.1, p.2.getD s [])),
           some (tchans.flatMap fun ch => t_start_of ch.2 ranges),
           some (tchans.flatMap fun ch => t_stop_of ch.2 ranges rate),
           some (tchans.flatMap fun ch => lengths_of ch.2 ranges)⟩

/-- The header fields of one NCS file that `_parse_header` consumes
(produced by the external `read_txt_header`). -/
structure ChannelHeader where
  channel_name : String
  channel_id : Nat
  bit_to_microVolt : ℚ
  input_inverted : Bool
  sampling_rate : ℚ
  deriving Repr, DecidableEq, Inhabited

/-- One row of `sig_channels` (line 81): `(name, id, units, gain, offset)`. -/
structure SigChannel where
  name : String
  id : Nat
  units : String
  gain : ℚ
  offset : ℚ
  deriving Repr, DecidableEq

instance : Inhabited SigChannel := ⟨⟨"", 0, "mV", 0, 0⟩⟩

/-- Lines 74-81: build one `sig_channels` row; `gain *= -1` when
`input_inverted`. -/
def mkSigChannel (h : ChannelHeader) : SigChannel :=
  { name := h.channel_name
    id := h.channel_id
    units := "mV"
    gain := if h.input_inverted then -h.bit_to_microVolt else h.bit_to_microVolt
    offset := 0 }

/-- Lines 85-88: `self._sigs_sampling_rate` starts as `None`, is set from the
first NCS header, and every later header is asserted equal. -/
def check_sampling_rates : List ChannelHeader → Option ℚ →
    Except NeoError (Option ℚ)
  | [], r => .ok r
  | h :: t, none => check_sampling_rates t (some h.sampling_rate)
  | h :: t, some r =>
    if h.sampling_rate = r then check_sampling_rates t (some r)
    else .error (.consistencyError "Sampling is not the same across NCS")

/-- The data `_parse_header` (lines 48-123) leaves behind on success: the
`header` dict entries together with the signal attributes used later. -/
structure ParsedHeader where
  nb_block : Nat
  nb_segment : List Nat
  signal_channels : List SigChannel
  global_t_start : List ℚ
  global_t_stop : List ℚ
  sigs_length : List Nat
  deriving Repr, DecidableEq

/-- `_parse_header` (lines 48-123) restricted to its NCS channel inputs: the
directory scan and text-header parsing are external, so the input is the
ordered list of (parsed header, decoded record array) per NCS file. After
`read_nsc_files` returns, lines 110-111 read `self._sigs_t_start` and
`self._sigs_t_stop`; if `read_nsc_files` took its empty early return these
attributes were never assigned and the read raises `AttributeError`. -/
def parse_header (files : List (ChannelHeader × List NcsRecord))
    (gap_indexes : Option (List Nat)) : Except NeoError ParsedHeader :=
  match check_sampling_rates (files.map Prod.fst) none with
  | .error e => .error e
  | .ok rateOpt =>
    match read_nsc_files (files.map fun f => (f.1.channel_id, f.2))
        (rateOpt.getD 0) gap_indexes with
    | .error e => .error e
    | .ok st =>
      match st.sigs_t_start with
      | none => .error (.attributeError "_sigs_t_start")
      | some ts =>
        match st.sigs_t_stop with
        | none => .error (.attributeError "_sigs_t_stop")
        | some tp =>
          .ok { nb_block := 1
                nb_segment := [st.nb_segment]
                signal_channels := files.map fun f => mkSigChannel f.1
                global_t_start := ts
                global_t_stop := tp
                sigs_length := st.sigs_length.getD [] }

/-- The parts of `self` that `_get_analogsignal_chunk` reads. -/
structure Reader where
  signal_channels : List SigChannel
  sigs_length : List Nat
  sigs_memmap : List (List (Nat × List NcsRecord))
  deriving Repr, DecidableEq

/-- `self._sigs_memmap[seg_index][chan_id]` dict access (line 159); the key is
present under the hypotheses of every use. -/
def lookupChan (m : List (Nat × List NcsRecord)) (c : Nat) : List NcsRecord :=
  (m.lookup c).getD []

/-- `_get_analogsignal_chunk` (lines 146-163). The numpy 2-D result of shape
`(i_stop - i_start, len(channel_indexes))` is modeled as its list of columns,
column `i` being `sigs_chunk[:, i]`. -/
def get_analogsignal_chunk (r : Reader) (seg_index : Nat)
    (i_start i_stop : Option Nat) (channel_indexes : List Nat) :
    List (List Int) :=
  let i0 := i_start.getD 0
  let i1 := i_stop.getD (r.sigs_length.getD seg_index 0)
  let block_start := i0 / BLOCK_SIZE
  let block_stop := i1 / BLOCK_SIZE + 1
  let sl0 := i0 % 512
  let sl1 := sl0 + (i1 - i0)
  let channel_ids := channel_indexes.map fun k =>
    (r.signal_channels.getD k default).id
  channel_ids.map fun chan_id =>
    listSlice (((listSlice (lookupChan (r.sigs_memmap.getD seg_index []) chan_id)
      block_start block_stop).map NcsRecord.samples).flatten) sl0 sl1

/-- Modelled from the spec: the public chunked-read wrapper around
`_get_analogsignal_chunk` lives in `baserawio.py`, which is not under `src/`.
Per spec §4.4 and §7 it resolves the omitted bounds (`sampleStart` to 0,
`sampleStop` to the segment's sample length), then fails with `RangeError`
when `sampleStart ≤ sampleStop ≤ segment length` is violated or a requested
channel id is not among the dataset's channels, and otherwise delegates to the
embedded `_get_analogsignal_chunk` using the table positions of the requested
channel ids. -/
def read_chunk (r : Reader) (seg_index : Nat) (i_start i_stop : Option Nat)
    (channel_ids : List Nat) : Except NeoError (List (List Int)) :=
  let L := r.sigs_length.getD seg_index 0
  let s0 := i_start.getD 0
  let s1 := i_stop.getD L
  if s0 ≤ s1 ∧ s1 ≤ L then
    if channel_ids.all fun c => (r.signal_channels.map SigChannel.id).contains c then
      .ok (get_analogsignal_chunk r seg_index (some s0) (some s1)
        (channel_ids.map fun c => (r.signal_channels.map SigChannel.id).indexOf c))
    else .error .rangeError
  else .error .rangeError

/-- `_spike_count` (lines 167-168): `raise(NotImplementedError)`. -/
def spike_count (block_index seg_index unit_index : Nat) :
    Except NeoError Nat := .error .unsupportedFeature

/-- `_spike_timestamps` (lines 170-171): `raise(NotImplementedError)`. -/
def spike_timestamps (block_index seg_index unit_index : Nat)
    (t_start t_stop : Option ℚ) : Except NeoError (List Nat) :=
  .error .unsupportedFeature

/-- `_rescale_spike_timestamp` (lines 173-174): `raise(NotImplementedError)`. -/
def rescale_spike_timestamp (spike_ts : List Nat) (dtype : String) :
    Except NeoError (List ℚ) := .error .unsupportedFeature

/-- `_spike_raw_waveforms` (lines 178-179): `raise(NotImplementedError)`. -/
def spike_raw_waveforms (block_index seg_index unit_index : Nat)
    (t_start t_stop : Option ℚ) : Except NeoError (List (List (List Int))) :=
  .error .unsupportedFeature

/-- `_event_count` (lines 183-184): `raise(NotImplementedError)`. -/
def event_count (block_index seg_index event_channel_index : Nat) :
    Except NeoError Nat := .error .unsupportedFeature

/-- `_event_timestamps` (lines 186-187): `raise(NotImplementedError)`. -/
def event_timestamps (block_index seg_index event_channel_index : Nat)
    (t_start t_stop : Option ℚ) : Except NeoError (List Nat) :=
  .error .unsupportedFeature

/-- `_rescale_event_timestamp` (lines 189-190): `raise(NotImplementedError)`. -/
def rescale_event_timestamp (event_ts : List Nat) (dtype : String) :
    Except NeoError (List ℚ) := .error .unsupportedFeature

/-- `_rescale_epoch_duration` (lines 192-193): `raise(NotImplementedError)`. -/
def rescale_epoch_duration (raw_duration : List Nat) (dtype : String) :
    Except NeoError (List ℚ) := .error .unsupportedFeature

/-- The segment record ranges that the scan path (`gap_indexes = None`)
computes from the reference channel's records. -/
def scan_ranges (data0 : List NcsRecord) (rate : ℚ) : List (Nat × Nat) :=
  segment_ranges (gap_bounds
    (detect_gap_indexes (good_delta rate) (data0.map NcsRecord.timestamp))
    data0.length)

/-- The three cross-channel consistency conditions checked while opening a
dataset: identical sampling rate across headers (line 88), identical record
count per channel (line 241), and identical first/last record timestamps per
computed segment (lines 247-248), all relative to the first (reference)
channel. -/
def consistentFiles (files : List (ChannelHeader × List NcsRecord)) : Prop :=
  (∀ f ∈ files, f.1.sampling_rate = (files.headI).1.sampling_rate) ∧
  (∀ f ∈ files, f.2.length = (files.headI).2.length) ∧
  (∀ f ∈ files,
    ∀ p ∈ scan_ranges (files.headI).2 (files.headI).1.sampling_rate,
      getTs f.2 p.1 = getTs (files.headI).2 p.1 ∧
      getTs f.2 (p.2 - 1) = getTs (files.headI).2 (p.2 - 1))

/-- A cross-channel inconsistency at the record level: some channel's record
count, or some channel's first/last record timestamp within a computed
segment, differs from the reference channel's. -/
def nsc_violation (nsc : List (Nat × List NcsRecord)) (rate : ℚ) : Prop :=
  ∃ ch ∈ nsc, ch.2.length ≠ (nsc.headI).2.length ∨
    ∃ p ∈ scan_ranges (nsc.headI).2 rate,
      getTs ch.2 p.1 ≠ getTs (nsc.headI).2 p.1 ∨
      getTs ch.2 (p.2 - 1) ≠ getTs (nsc.headI).2 (p.2 - 1)

/-- The `NscState` that `read_nsc_files` builds when every consistency check
passes on the scan path (`gap_indexes = None`): the value of lines 230-259
with every per-channel `process_channel` call succeeding. -/
def nsc_success_state (nsc : List (Nat × List NcsRecord)) (rate : ℚ) :
    NscState :=
  let data0 := (nsc.headI).2
  let gaps := detect_gap_indexes (good_delta rate) (data0.map NcsRecord.timestamp)
  let bounds := gap_bounds gaps data0.length
  let nb := bounds.length - 1
  let ranges := segment_ranges bounds
  let chanSubs := nsc.map fun ch => ranges.map fun r => listSlice ch.2 r.1 r.2
  let tchans := nsc.filter fun ch => ch.1 == (nsc.headI).1
  ⟨nb,
   some ((List.range nb).map fun s =>
     (nsc.zip chanSubs).map fun p => (p.1.1, p.2.getD s [])),
   some (tchans.flatMap fun ch => t_start_of ch.2 ranges),
   some (tchans.flatMap fun ch => t_stop_of ch.2 ranges rate),
   some (tchans.flatMap fun ch => lengths_of ch.2 ranges)⟩

/-! ### Helper lemmas -/

theorem listSlice_length {α : Type} (l : List α) (a b : Nat) :
    (listSlice l a b).length = min (b - a) (l.length - a) := by
  simp [listSlice]

theorem listSlice_getD {α : Type} (l : List α) (a b i : Nat) (d : α)
    (h1 : i < b - a) (h2 : a + i < l.length) :
    (listSlice l a b).getD i d = l.getD (a + i) d := by
  simp only [listSlice, List.getD_eq_getElem?_getD, List.getElem?_take, h1,
    if_pos, List.getElem?_drop]

theorem listSlice_eq_range_map {α : Type} (l : List α) (a b : Nat) (d : α)
    (hab : a ≤ b) (hb : b ≤ l.length) :
    listSlice l a b = (List.range (b - a)).map fun t => l.getD (a + t) d := by
  apply List.ext_getElem
  · simp [listSlice_length]; omega
  · intro i h1 h2
    have h3 : i < b - a := by simp [listSlice_length] at h1; omega
    have h4 : a + i < l.length := by omega
    have h5 := listSlice_getD l a b i d h3 h4
    rw [List.getD_eq_getElem?_getD, List.getElem?_eq_getElem h1] at h5
    simp only [Option.getD_some] at h5
    rw [h5, List.getElem_map, List.getElem_range]

theorem headI_eq_getD {α : Type} [Inhabited α] (l : List α) :
    l.headI = l.getD 0 default := by
  cases l <;> rfl

theorem flatten_map_samples_length (l : List NcsRecord)
    (h : ∀ rec ∈ l, rec.samples.length = BLOCK_SIZE) :
    ((l.map NcsRecord.samples).flatten).length = l.length * BLOCK_SIZE := by
  induction l with
  | nil => simp
  | cons x t ih =>
    simp only [List.map_cons, List.flatten_cons, List.length_append,
      List.length_cons, h x (by simp)]
    rw [ih fun r hr => h r (by simp [hr])]
    ring

theorem mapExcept_ok_of_forall {α β ε : Type} (f : α → Except ε β) (g : α → β)
    (l : List α) (h : ∀ a ∈ l, f a = .ok (g a)) :
    mapExcept f l = .ok (l.map g) := by
  induction l with
  | nil => rfl
  | cons x t ih =>
    unfold mapExcept
    rw [h x (by simp), ih fun a ha => h a (by simp [ha])]
    rfl

theorem mapExcept_error_mem {α β ε : Type} (f : α → Except ε β) (l : List α)
    (e : ε) (h : mapExcept f l = .error e) : ∃ a ∈ l, f a = .error e := by
  induction l with
  | nil => simp [mapExcept] at h
  | cons x t ih =>
    unfold mapExcept at h
    cases hx : f x with
    | error e2 => rw [hx] at h; exact ⟨x, by simp, by cases h; rw [hx]⟩
    | ok b =>
      rw [hx] at h
      cases ht : mapExcept f t with
      | error e2 =>
        rw [ht] at h
        cases h
        obtain ⟨a, ha, hfa⟩ := ih ht
        exact ⟨a, by simp [ha], hfa⟩
      | ok bs => rw [ht] at h; cases h

theorem mapExcept_exists_error {α β ε : Type} (f : α → Except ε β) (l : List α)
    (a : α) (ha : a ∈ l) (e : ε) (he : f a = .error e) :
    ∃ e2, mapExcept f l = .error e2 := by
  induction l with
  | nil => cases ha
  | cons x t ih =>
    unfold mapExcept
    cases hx : f x with
    | error e2 => exact ⟨e2, rfl⟩
    | ok b =>
      rcases List.mem_cons.mp ha with h | h
      · subst h; rw [hx] at he; cases he
      · obtain ⟨e2, h2⟩ := ih h
        rw [h2]
        exact ⟨e2, rfl⟩

theorem check_sampling_rates_ok (t : List ChannelHeader) (r : ℚ)
    (h : ∀ x ∈ t, x.sampling_rate = r) :
    check_sampling_rates t (some r) = .ok (some r) := by
  induction t with
  | nil => rfl
  | cons x s ih =>
    unfold check_sampling_rates
    rw [if_pos (h x (by simp))]
    exact ih fun a ha => h a (by simp [ha])

theorem check_sampling_rates_error (t : List ChannelHeader) (r : ℚ)
    (h : ∃ x ∈ t, x.sampling_rate ≠ r) :
    check_sampling_rates t (some r) =
      .error (.consistencyError "Sampling is not the same across NCS") := by
  induction t with
  | nil => simp at h
  | cons x s ih =>
    unfold check_sampling_rates
    by_cases hx : x.sampling_rate = r
    · rw [if_pos hx]
      apply ih
      obtain ⟨y, hy, hyr⟩ := h
      rcases List.mem_cons.mp hy with h2 | h2
      · subst h2; exact absurd hx hyr
      · exact ⟨y, h2, hyr⟩
    · rw [if_neg hx]

theorem detect_gap_indexes_lt (gd : Int) (ts : List Nat) :
    ∀ g ∈ detect_gap_indexes gd ts, g < ts.length - 1 := by
  intro g hg
  simp only [detect_gap_indexes, List.mem_filter, List.mem_range] at hg
  exact hg.1

theorem detect_gap_indexes_pairwise (gd : Int) (ts : List Nat) :
    (detect_gap_indexes gd ts).Pairwise (· < ·) :=
  (List.pairwise_lt_range _).filter _

theorem gap_bounds_pairwise (gaps : List Nat) (n : Nat) (hn : 1 ≤ n)
    (hlt : ∀ g ∈ gaps, g < n - 1) (hp : gaps.Pairwise (· < ·)) :
    (gap_bounds gaps n).Pairwise (· < ·) := by
  unfold gap_bounds
  apply List.pairwise_cons.mpr
  constructor
  · intro b hb
    rcases List.mem_append.mp hb with h | h
    · obtain ⟨g, hg, rfl⟩ := List.mem_map.mp h
      omega
    · rw [List.mem_singleton.mp h]
      omega
  · apply List.pairwise_append.mpr
    refine ⟨hp.map _ (fun a b hab => by omega), List.pairwise_singleton _ _, ?_⟩
    intro a ha b hb
    obtain ⟨g, hg, rfl⟩ := List.mem_map.mp ha
    rw [List.mem_singleton.mp hb]
    have := hlt g hg
    omega

theorem gap_bounds_length (gaps : List Nat) (n : Nat) :
    (gap_bounds gaps n).length = gaps.length + 2 := by
  simp [gap_bounds]

theorem gap_bounds_getD_last (gaps : List Nat) (n : Nat) :
    (gap_bounds gaps n).getD (gaps.length + 1) 0 = n := by
  simp only [gap_bounds, List.getD_eq_getElem?_getD, List.getElem?_cons_succ]
  rw [List.getElem?_append_right (by simp)]
  simp

theorem segment_ranges_length (bounds : List Nat) :
    (segment_ranges bounds).length = bounds.length - 1 := by
  simp only [segment_ranges, List.length_zip, List.length_tail]
  omega

theorem segment_ranges_getD (bounds : List Nat) (i : Nat)
    (h : i + 1 < bounds.length) :
    (segment_ranges bounds).getD i (0, 0) =
      (bounds.getD i 0, bounds.getD (i + 1) 0) := by
  have hlen : i < (segment_ranges bounds).length := by
    rw [segment_ranges_length]; omega
  have htail : i < bounds.tail.length := by simp [List.length_tail]; omega
  rw [List.getD_eq_getElem?_getD, List.getElem?_eq_getElem hlen]
  rw [List.getD_eq_getElem?_getD, List.getElem?_eq_getElem (by omega : i < bounds.length)]
  rw [List.getD_eq_getElem?_getD, List.getElem?_eq_getElem h]
  simp only [Option.getD_some]
  rw [show (segment_ranges bounds)[i] = (bounds[i], bounds.tail[i]) from
    List.getElem_zip]
  rw [List.getElem_tail]

theorem segment_ranges_cons_cons (a b : Nat) (t : List Nat) :
    segment_ranges (a :: b :: t) = (a, b) :: segment_ranges (b :: t) := rfl

theorem mem_segment_ranges (bounds : List Nat) (p : Nat × Nat)
    (hp : p ∈ segment_ranges bounds) :
    ∃ i, i + 1 < bounds.length ∧ p.1 = bounds.getD i 0 ∧
      p.2 = bounds.getD (i + 1) 0 := by
  obtain ⟨i, hi, hget⟩ := List.mem_iff_getElem.mp hp
  have h2 : i + 1 < bounds.length := by
    rw [segment_ranges_length] at hi; omega
  have hr := segment_ranges_getD bounds i h2
  rw [List.getD_eq_getElem?_getD, List.getElem?_eq_getElem hi,
    Option.getD_some, hget] at hr
  exact ⟨i, h2, by rw [hr], by rw [hr]⟩

theorem telescope_sum (l : List Nat) (a n : Nat)
    (h : (a :: (l ++ [n])).Pairwise (· ≤ ·)) :
    ((segment_ranges (a :: (l ++ [n]))).map fun p => p.2 - p.1).sum = n - a := by
  induction l generalizing a with
  | nil => simp [segment_ranges]
  | cons b t ih =>
    have hcons : a :: ((b :: t) ++ [n]) = a :: b :: (t ++ [n]) := rfl
    rw [hcons, segment_ranges_cons_cons, List.map_cons, List.sum_cons]
    have hpair := List.pairwise_cons.mp h
    have htail := hpair.2
    rw [ih b htail]
    have hab : a ≤ b := hpair.1 b (by simp)
    have hbn : b ≤ n := (List.pairwise_cons.mp htail).1 n (by simp)
    omega

theorem getD_of_lt {α : Type} (l : List α) (i : Nat) (d : α)
    (h : i < l.length) : l.getD i d = l[i] := by
  rw [List.getD_eq_getElem?_getD, List.getElem?_eq_getElem h, Option.getD_some]

theorem gap_bounds_getElem_le (gaps : List Nat) (n : Nat) (hn : 1 ≤ n)
    (hlt : ∀ g ∈ gaps, g < n - 1) (hp : gaps.Pairwise (· < ·)) (j : Nat)
    (hj : j < (gap_bounds gaps n).length) : (gap_bounds gaps n)[j] ≤ n := by
  have hpw := gap_bounds_pairwise gaps n hn hlt hp
  have hlen := gap_bounds_length gaps n
  have hlast := gap_bounds_getD_last gaps n
  rw [getD_of_lt _ _ _ (show gaps.length + 1 < (gap_bounds gaps n).length by
    omega)] at hlast
  rcases Nat.lt_or_ge j (gaps.length + 1) with h | h
  · have hR := List.pairwise_iff_get.mp hpw ⟨j, hj⟩ ⟨gaps.length + 1, by omega⟩
      (by simpa using h)
    simp only [List.get_eq_getElem] at hR
    rw [hlast] at hR
    omega
  · have hj2 : j = gaps.length + 1 := by omega
    subst hj2
    exact le_of_eq hlast

theorem gap_bounds_ranges_props (gaps : List Nat) (n : Nat) (hn : 1 ≤ n)
    (hlt : ∀ g ∈ gaps, g < n - 1) (hp : gaps.Pairwise (· < ·)) :
    ∀ p ∈ segment_ranges (gap_bounds gaps n), p.1 < p.2 ∧ p.2 ≤ n := by
  intro p hmem
  obtain ⟨i, hi, h1, h2⟩ := mem_segment_ranges _ p hmem
  have hpw := gap_bounds_pairwise gaps n hn hlt hp
  have hlt12 := List.pairwise_iff_get.mp hpw ⟨i, by omega⟩ ⟨i + 1, hi⟩ (by simp)
  simp only [List.get_eq_getElem] at hlt12
  constructor
  · rw [h1, h2, getD_of_lt _ _ _ (by omega : i < (gap_bounds gaps n).length),
      getD_of_lt _ _ _ hi]
    exact hlt12
  · rw [h2, getD_of_lt _ _ _ hi]
    exact gap_bounds_getElem_le gaps n hn hlt hp (i + 1) hi

theorem scan_ranges_props (data0 : List NcsRecord) (rate : ℚ)
    (hn : 1 ≤ data0.length) :
    ∀ p ∈ scan_ranges data0 rate, p.1 < p.2 ∧ p.2 ≤ data0.length := by
  unfold scan_ranges
  apply gap_bounds_ranges_props _ _ hn
  · intro g hg
    have := detect_gap_indexes_lt _ _ g hg
    simpa using this
  · exact detect_gap_indexes_pairwise _ _

theorem filter_head_of_nodup (nsc : List (Nat × List NcsRecord)) (hne : nsc ≠ [])
    (hnd : (nsc.map Prod.fst).Nodup) :
    (nsc.filter fun ch => ch.1 == (nsc.headI).1) = [nsc.headI] := by
  cases nsc with
  | nil => exact absurd rfl hne
  | cons x t =>
    simp only [List.headI_cons, List.filter_cons, beq_self_eq_true, if_pos]
    have hnx : x.1 ∉ t.map Prod.fst := by
      have h2 : (x.1 :: t.map Prod.fst).Nodup := by
        rw [← List.map_cons]
        exact hnd
      exact (List.nodup_cons.mp h2).1
    have hft : t.filter (fun ch => ch.1 == x.1) = [] := by
      apply List.filter_eq_nil_iff.mpr
      intro a ha
      simp only [beq_iff_eq]
      intro hax
      exact hnx (List.mem_map.mpr ⟨a, ha, hax⟩)
    rw [hft]

theorem process_channel_ok (data0 : List NcsRecord) (ranges : List (Nat × Nat))
    (data : List NcsRecord) (hcnt : data.length = data0.length)
    (hts : ∀ p ∈ ranges, getTs data p.1 = getTs data0 p.1 ∧
      getTs data (p.2 - 1) = getTs data0 (p.2 - 1)) :
    process_channel data0 ranges data =
      .ok (ranges.map fun r => listSlice data r.1 r.2) := by
  unfold process_channel
  rw [if_neg (fun h => h hcnt)]
  apply mapExcept_ok_of_forall
  intro r hr
  rw [if_neg (fun h => h (hts r hr).1), if_neg (fun h => h (hts r hr).2)]

theorem process_channel_error_consistency (data0 : List NcsRecord)
    (ranges : List (Nat × Nat)) (data : List NcsRecord) (e : NeoError)
    (h : process_channel data0 ranges data = .error e) :
    ∃ msg, e = .consistencyError msg := by
  unfold process_channel at h
  by_cases hc : data.length ≠ data0.length
  · rw [if_pos hc] at h
    cases h
    exact ⟨_, rfl⟩
  · rw [if_neg hc] at h
    obtain ⟨r, _, hfr⟩ := mapExcept_error_mem _ _ _ h
    by_cases h1 : getTs data r.1 ≠ getTs data0 r.1
    · rw [if_pos h1] at hfr
      cases hfr
      exact ⟨_, rfl⟩
    · rw [if_neg h1] at hfr
      by_cases h2 : getTs data (r.2 - 1) ≠ getTs data0 (r.2 - 1)
      · rw [if_pos h2] at hfr
        cases hfr
        exact ⟨_, rfl⟩
      · rw [if_neg h2] at hfr
        cases hfr

theorem process_channel_error_of_violation (data0 : List NcsRecord)
    (ranges : List (Nat × Nat)) (data : List NcsRecord)
    (h : data.length ≠ data0.length ∨ ∃ p ∈ ranges,
      getTs data p.1 ≠ getTs data0 p.1 ∨
      getTs data (p.2 - 1) ≠ getTs data0 (p.2 - 1)) :
    ∃ e, process_channel data0 ranges data = .error e := by
  unfold process_channel
  by_cases hc : data.length ≠ data0.length
  · rw [if_pos hc]
    exact ⟨_, rfl⟩
  · rw [if_neg hc]
    rcases h with h | ⟨p, hp, hv⟩
    · exact absurd h hc
    · have hfp : ∃ e, (if getTs data p.1 ≠ getTs data0 p.1 then
          (Except.error (NeoError.consistencyError "NSC files do not have the same gaps") :
            Except NeoError (List NcsRecord))
        else if getTs data (p.2 - 1) ≠ getTs data0 (p.2 - 1) then
          .error (.consistencyError "NSC files do not have the same gaps")
        else .ok (listSlice data p.1 p.2)) = .error e := by
        by_cases h1 : getTs data p.1 ≠ getTs data0 p.1
        · rw [if_pos h1]
          exact ⟨_, rfl⟩
        · rw [if_neg h1]
          rcases hv with hv | hv
          · exact absurd hv h1
          · rw [if_pos hv]
            exact ⟨_, rfl⟩
      obtain ⟨e, he⟩ := hfp
      exact mapExcept_exists_error _ _ p hp e he

theorem read_nsc_files_ok_of_consistent (nsc : List (Nat × List NcsRecord))
    (rate : ℚ) (hne : nsc ≠ [])
    (hcnt : ∀ ch ∈ nsc, ch.2.length = (nsc.headI).2.length)
    (hts : ∀ ch ∈ nsc, ∀ p ∈ scan_ranges (nsc.headI).2 rate,
      getTs ch.2 p.1 = getTs (nsc.headI).2 p.1 ∧
      getTs ch.2 (p.2 - 1) = getTs (nsc.headI).2 (p.2 - 1)) :
    read_nsc_files nsc rate none = .ok (nsc_success_state nsc rate) := by
  have hne0 : ¬(nsc.length = 0) := fun h => hne (List.length_eq_zero.mp h)
  have hmap : mapExcept (fun ch => process_channel (nsc.headI).2
      (scan_ranges (nsc.headI).2 rate) ch.2) nsc =
      .ok (nsc.map fun ch =>
        (scan_ranges (nsc.headI).2 rate).map fun r => listSlice ch.2 r.1 r.2) :=
    mapExcept_ok_of_forall _ _ _ fun ch hch =>
      process_channel_ok _ _ _ (hcnt ch hch) (hts ch hch)
  unfold scan_ranges at hmap
  simp only [read_nsc_files, nsc_success_state, if_neg hne0]
  rw [hmap]

theorem nsc_success_state_fields (nsc : List (Nat × List NcsRecord)) (rate : ℚ)
    (hne : nsc ≠ []) (hnd : (nsc.map Prod.fst).Nodup) :
    (nsc_success_state nsc rate).nb_segment =
      (scan_ranges (nsc.headI).2 rate).length ∧
    (nsc_success_state nsc rate).sigs_t_start =
      some (t_start_of (nsc.headI).2 (scan_ranges (nsc.headI).2 rate)) ∧
    (nsc_success_state nsc rate).sigs_t_stop =
      some (t_stop_of (nsc.headI).2 (scan_ranges (nsc.headI).2 rate) rate) ∧
    (nsc_success_state nsc rate).sigs_length =
      some (lengths_of (nsc.headI).2 (scan_ranges (nsc.headI).2 rate)) := by
  simp only [nsc_success_state, filter_head_of_nodup nsc hne hnd,
    List.flatMap_cons, List.flatMap_nil, List.append_nil, scan_ranges,
    segment_ranges_length]
  exact ⟨trivial, trivial, trivial, trivial⟩

theorem read_nsc_files_ok_inv (nsc : List (Nat × List NcsRecord)) (rate : ℚ)
    (st : NscState) (hne : nsc ≠ [])
    (h : read_nsc_files nsc rate none = .ok st) :
    st.nb_segment = (scan_ranges (nsc.headI).2 rate).length ∧
    st.sigs_t_start = some ((nsc.filter fun ch => ch.1 == (nsc.headI).1).flatMap
      fun ch => t_start_of ch.2 (scan_ranges (nsc.headI).2 rate)) ∧
    st.sigs_t_stop = some ((nsc.filter fun ch => ch.1 == (nsc.headI).1).flatMap
      fun ch => t_stop_of ch.2 (scan_ranges (nsc.headI).2 rate) rate) ∧
    st.sigs_length = some ((nsc.filter fun ch => ch.1 == (nsc.headI).1).flatMap
      fun ch => lengths_of ch.2 (scan_ranges (nsc.headI).2 rate)) := by
  have hne0 : ¬(nsc.length = 0) := fun h2 => hne (List.length_eq_zero.mp h2)
  simp only [read_nsc_files, if_neg hne0] at h
  rcases hm : mapExcept (fun ch => process_channel (nsc.headI).2
      (segment_ranges (gap_bounds (detect_gap_indexes (good_delta rate)
        ((nsc.headI).2.map NcsRecord.timestamp)) (nsc.headI).2.length)) ch.2)
      nsc with e | subs
  · rw [hm] at h
    cases h
  · rw [hm] at h
    cases h
    refine ⟨?_, rfl, rfl, rfl⟩
    simp only [scan_ranges, segment_ranges_length]

theorem read_nsc_files_error_of_violation (nsc : List (Nat × List NcsRecord))
    (rate : ℚ) (hne : nsc ≠ []) (h : nsc_violation nsc rate) :
    ∃ msg, read_nsc_files nsc rate none = .error (.consistencyError msg) := by
  have hne0 : ¬(nsc.length = 0) := fun h2 => hne (List.length_eq_zero.mp h2)
  obtain ⟨ch, hch, hviol⟩ := h
  obtain ⟨e, he⟩ := process_channel_error_of_violation (nsc.headI).2
    (scan_ranges (nsc.headI).2 rate) ch.2 hviol
  obtain ⟨e2, he2⟩ := mapExcept_exists_error
    (fun ch => process_channel (nsc.headI).2 (scan_ranges (nsc.headI).2 rate) ch.2)
    nsc ch hch e he
  obtain ⟨a, _, hfa⟩ := mapExcept_error_mem _ _ _ he2
  obtain ⟨msg, rfl⟩ := process_channel_error_consistency _ _ _ _ hfa
  refine ⟨msg, ?_⟩
  unfold scan_ranges at he2
  simp only [read_nsc_files, if_neg hne0]
  rw [he2]

theorem read_nsc_files_error_inv (nsc : List (Nat × List NcsRecord)) (rate : ℚ)
    (e : NeoError) (hne : nsc ≠ [])
    (h : read_nsc_files nsc rate none = .error e) :
    (∃ msg, e = .consistencyError msg) ∧
    ∃ ch ∈ nsc, process_channel (nsc.headI).2 (scan_ranges (nsc.headI).2 rate)
      ch.2 = .error e := by
  have hne0 : ¬(nsc.length = 0) := fun h2 => hne (List.length_eq_zero.mp h2)
  simp only [read_nsc_files, if_neg hne0] at h
  rcases hm : mapExcept (fun ch => process_channel (nsc.headI).2
      (segment_ranges (gap_bounds (detect_gap_indexes (good_delta rate)
        ((nsc.headI).2.map NcsRecord.timestamp)) (nsc.headI).2.length)) ch.2)
      nsc with e2 | subs
  · rw [hm] at h
    cases h
    obtain ⟨a, ha, hfa⟩ := mapExcept_error_mem _ _ _ hm
    exact ⟨process_channel_error_consistency _ _ _ _ hfa, a, ha, hfa⟩
  · rw [hm] at h
    cases h

theorem process_channel_not_ok_violation (data0 : List NcsRecord)
    (ranges : List (Nat × Nat)) (data : List NcsRecord) (e : NeoError)
    (h : process_channel data0 ranges data = .error e) :
    data.length ≠ data0.length ∨ ∃ p ∈ ranges,
      getTs data p.1 ≠ getTs data0 p.1 ∨
      getTs data (p.2 - 1) ≠ getTs data0 (p.2 - 1) := by
  by_contra hcon
  push_neg at hcon
  rw [process_channel_ok data0 ranges data hcon.1
    (fun p hp => ⟨(hcon.2 p hp).1, (hcon.2 p hp).2⟩)] at h
  cases h

theorem parse_header_ok_of_consistent (files : List (ChannelHeader × List NcsRecord))
    (hne : files ≠ []) (hcon : consistentFiles files) :
    ∃ ph, parse_header files none = .ok ph := by
  obtain ⟨hrates, hcnt, hts⟩ := hcon
  cases files with
  | nil => exact absurd rfl hne
  | cons f0 rest =>
    have hcheck : check_sampling_rates ((f0 :: rest).map Prod.fst) none =
        .ok (some f0.1.sampling_rate) := by
      rw [List.map_cons]
      show check_sampling_rates (rest.map Prod.fst) (some f0.1.sampling_rate) = _
      apply check_sampling_rates_ok
      intro x hx
      obtain ⟨f, hf, rfl⟩ := List.mem_map.mp hx
      exact hrates f (List.mem_cons_of_mem _ hf)
    have hnscne : ((f0 :: rest).map fun f => (f.1.channel_id, f.2)) ≠ [] := by
      simp
    have hread := read_nsc_files_ok_of_consistent
      ((f0 :: rest).map fun f => (f.1.channel_id, f.2)) f0.1.sampling_rate
      hnscne ?_ ?_
    · rcases hpv : parse_header (f0 :: rest) none with e | ph
      · exfalso
        simp only [parse_header, hcheck, Option.getD_some, hread,
          nsc_success_state] at hpv
        exact Except.noConfusion hpv
      · exact ⟨ph, rfl⟩
    · intro ch hch
      obtain ⟨f, hf, rfl⟩ := List.mem_map.mp hch
      exact hcnt f hf
    · intro ch hch p hp
      obtain ⟨f, hf, rfl⟩ := List.mem_map.mp hch
      exact hts f hf p hp

theorem parse_header_error_of_inconsistent
    (files : List (ChannelHeader × List NcsRecord)) (hne : files ≠ [])
    (hncon : ¬ consistentFiles files) :
    ∃ msg, parse_header files none = .error (.consistencyError msg) := by
  cases files with
  | nil => exact absurd rfl hne
  | cons f0 rest =>
    by_cases hr : ∀ f ∈ (f0 :: rest), f.1.sampling_rate = f0.1.sampling_rate
    · have hcheck : check_sampling_rates ((f0 :: rest).map Prod.fst) none =
          .ok (some f0.1.sampling_rate) := by
        rw [List.map_cons]
        show check_sampling_rates (rest.map Prod.fst) (some f0.1.sampling_rate) = _
        apply check_sampling_rates_ok
        intro x hx
        obtain ⟨f, hf, rfl⟩ := List.mem_map.mp hx
        exact hr f (List.mem_cons_of_mem _ hf)
      have hnscne : ((f0 :: rest).map fun f => (f.1.channel_id, f.2)) ≠ [] := by
        simp
      have hviol : nsc_violation ((f0 :: rest).map fun f => (f.1.channel_id, f.2))
          f0.1.sampling_rate := by
        by_contra hnv
        apply hncon
        unfold nsc_violation at hnv
        push_neg at hnv
        refine ⟨hr, ?_, ?_⟩
        · intro f hf
          exact (hnv (f.1.channel_id, f.2)
            (List.mem_map.mpr ⟨f, hf, rfl⟩)).1
        · intro f hf p hp
          exact (hnv (f.1.channel_id, f.2)
            (List.mem_map.mpr ⟨f, hf, rfl⟩)).2 p hp
      obtain ⟨msg, hread⟩ := read_nsc_files_error_of_violation _ _ hnscne hviol
      exact ⟨msg, by simp only [parse_header, hcheck, Option.getD_some, hread]⟩
    · push_neg at hr
      obtain ⟨f, hf, hfr⟩ := hr
      have hf2 : f ∈ rest := by
        rcases List.mem_cons.mp hf with h | h
        · exact absurd (by rw [h]) hfr
        · exact h
      have hcheck : check_sampling_rates ((f0 :: rest).map Prod.fst) none =
          .error (.consistencyError "Sampling is not the same across NCS") := by
        rw [List.map_cons]
        show check_sampling_rates (rest.map Prod.fst) (some f0.1.sampling_rate) = _
        apply check_sampling_rates_error
        exact ⟨f.1, List.mem_map.mpr ⟨f, hf2, rfl⟩, hfr⟩
      refine ⟨"Sampling is not the same across NCS", ?_⟩
      simp only [parse_header, hcheck]

theorem good_delta_32000 : good_delta 32000 = 16000 := by
  norm_num [good_delta, pyInt, BLOCK_SIZE]

theorem good_delta_30000 : good_delta 30000 = 17066 := by
  norm_num [good_delta, pyInt, BLOCK_SIZE]

theorem good_delta_eq_floor (R : ℚ) (hR : 0 < R) :
    good_delta R = Int.floor ((512 * 1000000 : ℚ) / R) := by
  unfold good_delta pyInt
  rw [if_neg (not_lt.mpr (le_of_lt (div_pos (by norm_num [BLOCK_SIZE]) hR)))]
  norm_num [BLOCK_SIZE]

theorem sub64_of_le (a b : Nat) (hba : b ≤ a) (ha : a < 2 ^ 64) :
    sub64 a b = a - b := by
  unfold sub64
  rw [Nat.mod_eq_of_lt (lt_of_le_of_lt hba ha)]
  rw [show a + 2 ^ 64 - b = (a - b) + 2 ^ 64 by omega]
  rw [Nat.add_mod_right]
  exact Nat.mod_eq_of_lt (by omega)

/-! ### Claim theorems -/

/-- C7: gap detection is deterministic (equal inputs give equal boundary index
lists), and supplying the boundary indexes produced by a scan of the reference
channel's timestamps as the cached `gap_indexes` argument yields a result
state (segment count, per-segment record slices, start/stop times, sample
lengths) identical to the one produced by the full scan (`gap_indexes=None`). -/
theorem c7_gap_cache_idempotence :
    (∀ (gd : Int) (ts : List Nat),
      detect_gap_indexes gd ts = detect_gap_indexes gd ts) ∧
    ∀ (nsc : List (Nat × List NcsRecord)) (rate : ℚ),
      read_nsc_files nsc rate
        (some (detect_gap_indexes (good_delta rate)
          ((nsc.headI).2.map NcsRecord.timestamp))) =
      read_nsc_files nsc rate none := by
  refine ⟨fun gd ts => rfl, fun nsc rate => ?_⟩
  rfl

/-- C8 (code bug evidence): with an empty channel set, `read_nsc_files` takes
its early return (for any rate and any cached gap indexes) with
`_nb_segment = 1` and never invokes gap detection — but it leaves
`_sigs_t_start` unassigned, so `_parse_header` line 110
(`self.global_t_start = self._sigs_t_start`) raises `AttributeError` and the
dataset open fails instead of completing with one segment. -/
theorem c8_empty_channel_set :
    read_nsc_files [] 0 none = .ok ⟨1, none, none, none, none⟩ ∧
    (∀ (rate : ℚ) (gi : Option (List Nat)),
      read_nsc_files [] rate gi = .ok ⟨1, none, none, none, none⟩) ∧
    parse_header [] none = .error (.attributeError "_sigs_t_start") :=
  ⟨rfl, fun _ _ => rfl, rfl⟩

/-- C9: every spike-count, spike-timestamp, spike-waveform, event-count,
event-timestamp, and timestamp/duration-rescaling operation fails for all
arguments with an `UnsupportedFeature` error (`raise(NotImplementedError)` in
the source), never returning data. -/
theorem c9_stubs_unsupported :
    (∀ b s u, spike_count b s u = .error .unsupportedFeature) ∧
    (∀ b s u t0 t1, spike_timestamps b s u t0 t1 = .error .unsupportedFeature) ∧
    (∀ ts dt, rescale_spike_timestamp ts dt = .error .unsupportedFeature) ∧
    (∀ b s u t0 t1, spike_raw_waveforms b s u t0 t1 = .error .unsupportedFeature) ∧
    (∀ b s e, event_count b s e = .error .unsupportedFeature) ∧
    (∀ b s e t0 t1, event_timestamps b s e t0 t1 = .error .unsupportedFeature) ∧
    (∀ ts dt, rescale_event_timestamp ts dt = .error .unsupportedFeature) ∧
    (∀ d dt, rescale_epoch_duration d dt = .error .unsupportedFeature) :=
  ⟨fun _ _ _ => rfl, fun _ _ _ _ _ => rfl, fun _ _ => rfl, fun _ _ _ _ _ => rfl,
   fun _ _ _ => rfl, fun _ _ _ _ _ => rfl, fun _ _ => rfl, fun _ _ => rfl⟩

/-- C2 (counterexample): at sample rate 30000 Hz the claim's expected delta
`512 × 10^6 / R` is not what the code compares against. For the timestamp
pair `[0, 17066]` the observed delta 17066 differs from `512 × 10^6 / 30000`
(a non-integer rational), so the claim predicts a boundary at index 0 and two
segments — but the code, which compares against `int(512e6/30000) = 17066`,
produces no boundary and a single segment. -/
theorem c2_counterexample :
    ((17066 : ℚ) - 0 ≠ (512 * 1000000 : ℚ) / 30000) ∧
    detect_gap_indexes (good_delta 30000) [0, 17066] = [] ∧
    gap_bounds (detect_gap_indexes (good_delta 30000) [0, 17066]) 2 = [0, 2] := by
  have hd : detect_gap_indexes (good_delta 30000) [0, 17066] = [] := by
    rw [good_delta_30000]
    decide
  refine ⟨by norm_num, hd, ?_⟩
  rw [hd]
  decide

/-- C2 (amended): for every ordered (nondecreasing) sequence of uint64
timestamps and positive sample rate R, the gap detector compares each
consecutive delta against `int(512 × 10^6 / R)` — the floor of the exact
rational, equal to `512 × 10^6 / R` exactly when R divides 512 × 10^6 — and
marks index i as a boundary exactly when `timestamp[i+1] − timestamp[i]`
differs from that integer (exact equality, no tolerance); the breakpoints are
`[0] + [b+1 for b in boundaries] + [N]` and the segment count is
`breakpoints.length − 1 = boundaries.length + 1`. In particular, with
R = 32000 and timestamps `[0, 16000, 32000, 48500, 64500]`, exactly one
boundary is produced (at index 2) and the segments are `[0,3)` and `[3,5)`. -/
theorem c2_gap_detection_amended (R : ℚ) (ts : List Nat) (hR : 0 < R)
    (hN : 1 ≤ ts.length)
    (hmono : ∀ i, i + 1 < ts.length → ts.getD i 0 ≤ ts.getD (i + 1) 0)
    (hb : ∀ t ∈ ts, t < 2 ^ 64) :
    (∀ i, i ∈ detect_gap_indexes (good_delta R) ts ↔
      i + 1 < ts.length ∧
      (ts.getD (i + 1) 0 : Int) - (ts.getD i 0 : Int) ≠ good_delta R) ∧
    good_delta R = Int.floor ((512 * 1000000 : ℚ) / R) ∧
    gap_bounds (detect_gap_indexes (good_delta R) ts) ts.length =
      0 :: ((detect_gap_indexes (good_delta R) ts).map (· + 1) ++ [ts.length]) ∧
    (gap_bounds (detect_gap_indexes (good_delta R) ts) ts.length).length - 1 =
      (detect_gap_indexes (good_delta R) ts).length + 1 ∧
    detect_gap_indexes (good_delta 32000) [0, 16000, 32000, 48500, 64500] = [2] ∧
    segment_ranges (gap_bounds (detect_gap_indexes (good_delta 32000)
      [0, 16000, 32000, 48500, 64500]) 5) = [(0, 3), (3, 5)] := by
  have hscen : detect_gap_indexes (good_delta 32000)
      [0, 16000, 32000, 48500, 64500] = [2] := by
    rw [good_delta_32000]
    decide
  refine ⟨?_, good_delta_eq_floor R hR, rfl, ?_, hscen, ?_⟩
  · intro i
    simp only [detect_gap_indexes, List.mem_filter, List.mem_range,
      bne_iff_ne, ne_eq]
    constructor
    · rintro ⟨h1, h2⟩
      have hi1 : i + 1 < ts.length := by omega
      refine ⟨hi1, fun hc => h2 ?_⟩
      rw [sub64_of_le _ _ (hmono i hi1) (by
        rw [getD_of_lt _ _ _ hi1]
        exact hb _ (List.getElem_mem _))]
      rw [Nat.cast_sub (hmono i hi1)]
      exact hc
    · rintro ⟨h1, h2⟩
      refine ⟨by omega, fun hc => h2 ?_⟩
      rw [sub64_of_le _ _ (hmono i h1) (by
        rw [getD_of_lt _ _ _ h1]
        exact hb _ (List.getElem_mem _)), Nat.cast_sub (hmono i h1)] at hc
      exact hc
  · rw [gap_bounds_length]
    omega
  · rw [hscen]
    decide

/-- C2 (witness): the amended theorem applied to the claim's concrete
scenario, R = 32000 with timestamps `[0, 16000, 32000, 48500, 64500]`. -/
theorem c2_witness :
    detect_gap_indexes (good_delta 32000) [0, 16000, 32000, 48500, 64500] = [2] ∧
    segment_ranges (gap_bounds (detect_gap_indexes (good_delta 32000)
      [0, 16000, 32000, 48500, 64500]) 5) = [(0, 3), (3, 5)] ∧
    (2 : Nat) ∈ detect_gap_indexes (good_delta 32000)
      [0, 16000, 32000, 48500, 64500] := by
  have h := c2_gap_detection_amended 32000 [0, 16000, 32000, 48500, 64500]
    (by norm_num) (by decide)
    (by
      intro i hi
      have h4 : i < 4 := by
        have h5 : i + 1 < 5 := by simpa using hi
        omega
      interval_cases i <;> decide)
    (by decide)
  refine ⟨h.2.2.2.2.1, h.2.2.2.2.2, ?_⟩
  apply (h.1 2).mpr
  rw [good_delta_32000]
  refine ⟨by decide, by decide⟩

/-- C10: the expected per-block timestamp delta is `int(512 × 1e6 /
sample_rate)` — exact rational division followed by truncation toward zero
(`pyInt`), which for positive rates is the floor of the exact rational delta.
Hence for every positive sample rate that does not divide 512,000,000 exactly
the comparison value is strictly below the exact rational delta, and every
recording whose constant integer timestamp delta is the exact value rounded
any other way (any integer other than the floor) is flagged as having a gap
at every consecutive record pair. -/
theorem c10_truncated_delta (R : ℚ) (d : Nat) (ts : List Nat) (hR : 0 < R)
    (hnd : ∀ k : Int, (k : ℚ) * R ≠ 512 * 1000000)
    (hd : (d : Int) ≠ good_delta R)
    (hts : ∀ i, i + 1 < ts.length → ts.getD (i + 1) 0 = ts.getD i 0 + d)
    (hb : ∀ t ∈ ts, t < 2 ^ 64) :
    good_delta R = Int.floor ((512 * 1000000 : ℚ) / R) ∧
    ((good_delta R : ℚ) < (512 * 1000000 : ℚ) / R) ∧
    detect_gap_indexes (good_delta R) ts = List.range (ts.length - 1) := by
  have hfl := good_delta_eq_floor R hR
  refine ⟨hfl, ?_, ?_⟩
  · have hle : ((good_delta R : Int) : ℚ) ≤ (512 * 1000000 : ℚ) / R := by
      rw [hfl]
      exact Int.floor_le _
    rcases lt_or_eq_of_le hle with h | h
    · exact h
    · exfalso
      apply hnd (good_delta R)
      rw [h]
      field_simp
  · unfold detect_gap_indexes
    apply List.filter_eq_self.mpr
    intro i hi
    have hi2 : i < ts.length - 1 := List.mem_range.mp hi
    have hi1 : i + 1 < ts.length := by omega
    have hdl : ts.getD (i + 1) 0 = ts.getD i 0 + d := hts i hi1
    have hlt : ts.getD (i + 1) 0 < 2 ^ 64 := by
      rw [getD_of_lt _ _ _ hi1]
      exact hb _ (List.getElem_mem _)
    rw [bne_iff_ne, ne_eq]
    intro hc
    apply hd
    rw [sub64_of_le _ _ (by omega) hlt, hdl] at hc
    rw [show ts.getD i 0 + d - ts.getD i 0 = d by omega] at hc
    exact hc

/-- C10 (witness): rate 30000 Hz does not divide 512,000,000; the code's
comparison value `good_delta 30000 = 17066` is strictly below the exact
rational 512 × 10^6 / 30000, and a recording with constant delta 17067 (the
value rounded up) is flagged at every consecutive pair. -/
theorem c10_witness :
    ((good_delta 30000 : ℚ) < (512 * 1000000 : ℚ) / 30000) ∧
    detect_gap_indexes (good_delta 30000) [0, 17067, 34134] = List.range 2 := by
  have h := c10_truncated_delta 30000 17067 [0, 17067, 34134] (by norm_num)
    (by
      intro k hk
      have h2 : ((k * 30000 : Int) : ℚ) = ((512000000 : Int) : ℚ) := by
        push_cast
        linarith
      have h3 : (k * 30000 : Int) = 512000000 := by exact_mod_cast h2
      omega)
    (by
      rw [good_delta_30000]
      decide)
    (by
      intro i hi
      have h4 : i < 2 := by
        have h5 : i + 1 < 3 := by simpa using hi
        omega
      interval_cases i <;> decide)
    (by decide)
  exact ⟨h.2.1, h.2.2⟩

/-- C4: opening a dataset (with at least one NCS channel whose file decodes to
at least one record) fails with a `ConsistencyError` — fatally, on the first
violation, with no partial result (the `Except` carries only the error) —
exactly when some channel's record count differs from the reference (first)
channel's, or some channel's first/last record timestamp within a computed
segment differs from the reference channel's, or some header's sampling rate
differs from the first channel's; and it succeeds exactly when none of these
hold. -/
theorem c4_consistency_error_iff
    (files : List (ChannelHeader × List NcsRecord)) (hne : files ≠ [])
    (hN : 1 ≤ (files.headI).2.length) :
    ((∃ msg, parse_header files none = .error (.consistencyError msg)) ↔
      ¬ consistentFiles files) ∧
    ((∃ ph, parse_header files none = .ok ph) ↔ consistentFiles files) := by
  constructor
  · constructor
    · rintro ⟨msg, hmsg⟩ hcon
      obtain ⟨ph, hok⟩ := parse_header_ok_of_consistent files hne hcon
      rw [hok] at hmsg
      cases hmsg
    · exact parse_header_error_of_inconsistent files hne
  · constructor
    · rintro ⟨ph, hok⟩
      by_contra hncon
      obtain ⟨msg, herr⟩ := parse_header_error_of_inconsistent files hne hncon
      rw [hok] at herr
      cases herr
    · exact parse_header_ok_of_consistent files hne

/-- C4 (witness): two channel files whose record counts differ (1 vs 0)
fail to open with a `ConsistencyError`. -/
theorem c4_witness :
    ∃ msg, parse_header
      [(⟨"a", 1, 1, false, 32000⟩, [⟨0, 1, 32000, 512, []⟩]),
       (⟨"b", 2, 1, false, 32000⟩, [])] none =
      .error (.consistencyError msg) := by
  apply (c4_consistency_error_iff
    [(⟨"a", 1, 1, false, 32000⟩, [⟨0, 1, 32000, 512, []⟩]),
     (⟨"b", 2, 1, false, 32000⟩, [])] (by decide) (by decide)).1.mpr
  intro hcon
  have h2 := hcon.2.1 (⟨"b", 2, 1, false, 32000⟩, []) (by simp)
  simp at h2

theorem listSlice_headI {α : Type} [Inhabited α] (l : List α) (a b : Nat)
    (hab : a < b) (ha : a < l.length) :
    (listSlice l a b).headI = l.getD a default := by
  rw [headI_eq_getD, listSlice_getD l a b 0 default (by omega) (by omega)]
  norm_num

theorem listSlice_getLast {α : Type} [Inhabited α] (l : List α) (a b : Nat)
    (hab : a < b) (hb : b ≤ l.length) :
    (listSlice l a b).getLast?.getD default = l.getD (b - 1) default := by
  have hlen : (listSlice l a b).length = b - a := by
    rw [listSlice_length]
    omega
  rw [List.getLast?_eq_getElem?, hlen]
  have h2 := listSlice_getD l a b (b - a - 1) default (by omega) (by omega)
  rw [List.getD_eq_getElem?_getD] at h2
  rw [h2]
  congr 1
  omega

theorem sum_map_mul_const {α : Type} (l : List α) (f : α → Nat) (c : Nat) :
    (l.map fun x => f x * c).sum = (l.map f).sum * c := by
  induction l with
  | nil => simp
  | cons x t ih => simp [ih, Nat.add_mul]

theorem lengths_sum_scan (data0 : List NcsRecord) (rate : ℚ)
    (hN : 1 ≤ data0.length) :
    (lengths_of data0 (scan_ranges data0 rate)).sum = data0.length * 512 := by
  have hprops := scan_ranges_props data0 rate hN
  unfold lengths_of
  have h1 : (scan_ranges data0 rate).map
      (fun r => (listSlice data0 r.1 r.2).length * BLOCK_SIZE) =
      (scan_ranges data0 rate).map (fun r => (r.2 - r.1) * BLOCK_SIZE) :=
    List.map_congr_left fun p hp => by
      rw [listSlice_length]
      have := hprops p hp
      congr 1
      omega
  rw [h1]
  have h2 := sum_map_mul_const (scan_ranges data0 rate) (fun r => r.2 - r.1)
    BLOCK_SIZE
  rw [h2]
  have hgl : ∀ g ∈ detect_gap_indexes (good_delta rate)
      (data0.map NcsRecord.timestamp), g < data0.length - 1 := by
    intro g hg
    have := detect_gap_indexes_lt _ _ g hg
    simpa using this
  have hpw : (gap_bounds (detect_gap_indexes (good_delta rate)
      (data0.map NcsRecord.timestamp)) data0.length).Pairwise (· ≤ ·) :=
    (gap_bounds_pairwise _ _ hN hgl (detect_gap_indexes_pairwise _ _)).imp
      le_of_lt
  have ht := telescope_sum ((detect_gap_indexes (good_delta rate)
      (data0.map NcsRecord.timestamp)).map (· + 1)) 0 data0.length
    (by
      rw [show (0 : Nat) :: ((detect_gap_indexes (good_delta rate)
        (data0.map NcsRecord.timestamp)).map (· + 1) ++ [data0.length]) =
        gap_bounds (detect_gap_indexes (good_delta rate)
          (data0.map NcsRecord.timestamp)) data0.length from rfl]
      exact hpw)
  unfold scan_ranges gap_bounds
  rw [ht]
  rw [show data0.length - 0 = data0.length by omega]
  rw [show BLOCK_SIZE = 512 from rfl]

/-- C5: for every successfully opened dataset (nonempty channel set, distinct
channel ids, nonempty reference records, all consistency checks passing), the
stored per-segment attributes over each computed record range `[i0, i1)` are:
start time = `timestamp[i0] / 10^6` seconds, stop time =
`timestamp[i1-1] / 10^6 + BLOCK_SIZE / sample_rate` seconds, and sample
length = `(i1 - i0) × BLOCK_SIZE` samples — computed once from the reference
channel's records and stored in the single dataset-level lists shared by all
channels. -/
theorem c5_segment_attributes (nsc : List (Nat × List NcsRecord)) (rate : ℚ)
    (hne : nsc ≠ []) (hN : 1 ≤ (nsc.headI).2.length)
    (hnd : (nsc.map Prod.fst).Nodup)
    (hcnt : ∀ ch ∈ nsc, ch.2.length = (nsc.headI).2.length)
    (hts : ∀ ch ∈ nsc, ∀ p ∈ scan_ranges (nsc.headI).2 rate,
      getTs ch.2 p.1 = getTs (nsc.headI).2 p.1 ∧
      getTs ch.2 (p.2 - 1) = getTs (nsc.headI).2 (p.2 - 1)) :
    read_nsc_files nsc rate none = .ok (nsc_success_state nsc rate) ∧
    (nsc_success_state nsc rate).sigs_t_start =
      some ((scan_ranges (nsc.headI).2 rate).map fun p =>
        (getTs (nsc.headI).2 p.1 : ℚ) / 1000000) ∧
    (nsc_success_state nsc rate).sigs_t_stop =
      some ((scan_ranges (nsc.headI).2 rate).map fun p =>
        (getTs (nsc.headI).2 (p.2 - 1) : ℚ) / 1000000 + (BLOCK_SIZE : ℚ) / rate) ∧
    (nsc_success_state nsc rate).sigs_length =
      some ((scan_ranges (nsc.headI).2 rate).map fun p =>
        (p.2 - p.1) * BLOCK_SIZE) := by
  obtain ⟨hf1, hf2, hf3, hf4⟩ := nsc_success_state_fields nsc rate hne hnd
  have hprops := scan_ranges_props (nsc.headI).2 rate hN
  refine ⟨read_nsc_files_ok_of_consistent nsc rate hne hcnt hts, ?_, ?_, ?_⟩
  · rw [hf2, Option.some_inj]
    unfold t_start_of
    apply List.map_congr_left
    intro p hp
    rw [listSlice_headI _ _ _ (hprops p hp).1 (by
      have := hprops p hp
      omega)]
    rfl
  · rw [hf3, Option.some_inj]
    unfold t_stop_of
    apply List.map_congr_left
    intro p hp
    rw [listSlice_getLast _ _ _ (hprops p hp).1 (hprops p hp).2]
    rfl
  · rw [hf4, Option.some_inj]
    unfold lengths_of
    apply List.map_congr_left
    intro p hp
    rw [listSlice_length]
    have := hprops p hp
    congr 1
    omega

/-- C5 (witness): a one-channel dataset of two contiguous records at 32000 Hz
opens into the computed success state. -/
theorem c5_witness :
    read_nsc_files [(7, [⟨0, 7, 32000, 512, []⟩, ⟨16000, 7, 32000, 512, []⟩])]
      32000 none = .ok (nsc_success_state
        [(7, [⟨0, 7, 32000, 512, []⟩, ⟨16000, 7, 32000, 512, []⟩])] 32000) ∧
    (nsc_success_state
      [(7, [⟨0, 7, 32000, 512, []⟩, ⟨16000, 7, 32000, 512, []⟩])]
      32000).sigs_length =
      some ((scan_ranges [⟨0, 7, 32000, 512, []⟩, ⟨16000, 7, 32000, 512, []⟩]
        32000).map fun p => (p.2 - p.1) * BLOCK_SIZE) := by
  have h := c5_segment_attributes
    [(7, [⟨0, 7, 32000, 512, []⟩, ⟨16000, 7, 32000, 512, []⟩])] 32000
    (by decide) (by decide) (by decide) (by decide)
    (by
      intro ch hch p hp
      simp at hch
      subst hch
      exact ⟨rfl, rfl⟩)
  exact ⟨h.1, h.2.2.2⟩

/-- C6: for every dataset that opens successfully on the scan path (nonempty
channel set with distinct channel ids, reference channel of N ≥ 1 records),
the computed segments partition the record index range `[0, N)`: the first
segment starts at record 0, the last ends at record N, each segment's stop
record index equals the next segment's start record index, and the stored
per-segment sample lengths sum to `N × 512`. -/
theorem c6_segments_partition (nsc : List (Nat × List NcsRecord)) (rate : ℚ)
    (st : NscState) (hne : nsc ≠ []) (hN : 1 ≤ (nsc.headI).2.length)
    (hnd : (nsc.map Prod.fst).Nodup)
    (h : read_nsc_files nsc rate none = .ok st) :
    ((scan_ranges (nsc.headI).2 rate).getD 0 (0, 0)).1 = 0 ∧
    ((scan_ranges (nsc.headI).2 rate).getD
      ((scan_ranges (nsc.headI).2 rate).length - 1) (0, 0)).2 =
      (nsc.headI).2.length ∧
    (∀ i, i + 1 < (scan_ranges (nsc.headI).2 rate).length →
      ((scan_ranges (nsc.headI).2 rate).getD i (0, 0)).2 =
      ((scan_ranges (nsc.headI).2 rate).getD (i + 1) (0, 0)).1) ∧
    ∃ L, st.sigs_length = some L ∧ L.sum = (nsc.headI).2.length * 512 := by
  have hbl := gap_bounds_length (detect_gap_indexes (good_delta rate)
    ((nsc.headI).2.map NcsRecord.timestamp)) (nsc.headI).2.length
  have hrl : (scan_ranges (nsc.headI).2 rate).length =
      (detect_gap_indexes (good_delta rate)
        ((nsc.headI).2.map NcsRecord.timestamp)).length + 1 := by
    unfold scan_ranges
    rw [segment_ranges_length, hbl]
    omega
  refine ⟨?_, ?_, ?_, ?_⟩
  · show ((segment_ranges (gap_bounds _ _)).getD 0 (0, 0)).1 = 0
    rw [segment_ranges_getD _ 0 (by omega)]
    rfl
  · show ((segment_ranges (gap_bounds _ _)).getD _ (0, 0)).2 = _
    rw [show (scan_ranges (nsc.headI).2 rate).length - 1 =
      (detect_gap_indexes (good_delta rate)
        ((nsc.headI).2.map NcsRecord.timestamp)).length by omega]
    rw [segment_ranges_getD _ _ (by omega)]
    exact gap_bounds_getD_last _ _
  · intro i hi
    rw [hrl] at hi
    show ((segment_ranges (gap_bounds _ _)).getD i (0, 0)).2 =
      ((segment_ranges (gap_bounds _ _)).getD (i + 1) (0, 0)).1
    rw [segment_ranges_getD _ i (by omega), segment_ranges_getD _ (i + 1) (by omega)]
  · obtain ⟨_, _, _, hlen⟩ := read_nsc_files_ok_inv nsc rate st hne h
    rw [filter_head_of_nodup nsc hne hnd] at hlen
    simp only [List.flatMap_cons, List.flatMap_nil, List.append_nil] at hlen
    exact ⟨_, hlen, lengths_sum_scan (nsc.headI).2 rate hN⟩

/-- C6 (witness): a one-channel dataset with a gap (records at timestamps
0, 16000, 48500 at 32000 Hz) opens successfully and its computed segments
partition the three records with sample lengths summing to 3 × 512. -/
theorem c6_witness :
    ((scan_ranges [(⟨0, 7, 32000, 512, []⟩ : NcsRecord),
      ⟨16000, 7, 32000, 512, []⟩, ⟨48500, 7, 32000, 512, []⟩] 32000).getD 0
      (0, 0)).1 = 0 ∧
    ∃ L, (nsc_success_state [(7, [(⟨0, 7, 32000, 512, []⟩ : NcsRecord),
      ⟨16000, 7, 32000, 512, []⟩, ⟨48500, 7, 32000, 512, []⟩])]
      32000).sigs_length = some L ∧ L.sum = 3 * 512 := by
  have hok := read_nsc_files_ok_of_consistent
    [(7, [(⟨0, 7, 32000, 512, []⟩ : NcsRecord), ⟨16000, 7, 32000, 512, []⟩,
      ⟨48500, 7, 32000, 512, []⟩])] 32000 (by simp)
    (by
      intro ch hch
      simp at hch
      subst hch
      rfl)
    (by
      intro ch hch p hp
      simp at hch
      subst hch
      exact ⟨rfl, rfl⟩)
  have h := c6_segments_partition
    [(7, [(⟨0, 7, 32000, 512, []⟩ : NcsRecord), ⟨16000, 7, 32000, 512, []⟩,
      ⟨48500, 7, 32000, 512, []⟩])] 32000 _ (by simp) (by simp) (by simp) hok
  exact ⟨h.1, h.2.2.2⟩

/-- C3: a chunked-read request whose resolved sample range violates
`sampleStart ≤ sampleStop ≤ segment sample length`, or whose channel id list
names a channel not in the dataset's channel table, fails with `RangeError`
and returns no part of a result; an omitted `sampleStart` defaults to 0 and
an omitted `sampleStop` defaults to the segment's sample length. -/
theorem c3_read_chunk_range_checks (r : Reader) (seg_index : Nat)
    (i_start i_stop : Option Nat) (channel_ids : List Nat) :
    ((¬ (i_start.getD 0 ≤ i_stop.getD (r.sigs_length.getD seg_index 0) ∧
        i_stop.getD (r.sigs_length.getD seg_index 0) ≤
          r.sigs_length.getD seg_index 0) ∨
      ∃ c ∈ channel_ids, c ∉ r.signal_channels.map SigChannel.id) →
      read_chunk r seg_index i_start i_stop channel_ids = .error .rangeError) ∧
    read_chunk r seg_index none none channel_ids =
      read_chunk r seg_index (some 0)
        (some (r.sigs_length.getD seg_index 0)) channel_ids := by
  refine ⟨?_, rfl⟩
  intro h
  simp only [read_chunk]
  rcases h with h | ⟨c, hc, hnc⟩
  · rw [if_neg h]
  · by_cases hcond : i_start.getD 0 ≤ i_stop.getD (r.sigs_length.getD seg_index 0) ∧
        i_stop.getD (r.sigs_length.getD seg_index 0) ≤
          r.sigs_length.getD seg_index 0
    · rw [if_pos hcond, if_neg]
      intro hall
      apply hnc
      have h2 := List.all_eq_true.mp hall c hc
      have h3 : (r.signal_channels.map SigChannel.id).elem c = true := h2
      exact (List.elem_iff).mp h3
    · rw [if_neg hcond]

/-- C3 (witness): a request with `sampleStart = 5 > sampleStop = 3` fails
with `RangeError`. -/
theorem c3_witness :
    read_chunk ⟨[⟨"ch0", 7, "mV", 1, 0⟩], [1024], [[(7, [])]]⟩ 0
      (some 5) (some 3) [] = .error .rangeError :=
  (c3_read_chunk_range_checks ⟨[⟨"ch0", 7, "mV", 1, 0⟩], [1024], [[(7, [])]]⟩
    0 (some 5) (some 3) []).1 (Or.inl (by decide))

theorem listSlice_subset {α : Type} (l : List α) (a b : Nat) :
    ∀ x ∈ listSlice l a b, x ∈ l := fun _ hx =>
  List.drop_subset a l (List.take_subset _ _ hx)

theorem listSlice_map {α β : Type} (h : α → β) (l : List α) (a b : Nat) :
    listSlice (l.map h) a b = (listSlice l a b).map h := by
  simp [listSlice, List.map_take, List.map_drop]

theorem lookupChan_map (m : List (Nat × List NcsRecord)) (c : Nat)
    (g : List NcsRecord → List NcsRecord) (hg : g [] = []) :
    lookupChan (m.map fun q => (q.1, g q.2)) c = g (lookupChan m c) := by
  induction m with
  | nil => simp [lookupChan, hg]
  | cons q t ih =>
    cases hqc : c == q.1 with
    | true => simp [lookupChan, List.lookup, hqc]
    | false =>
      simp only [List.map_cons, lookupChan, List.lookup, hqc] at ih ⊢
      exact ih

theorem getD_map_nested (mm : List (List (Nat × List NcsRecord))) (seg : Nat)
    (F : (Nat × List NcsRecord) → (Nat × List NcsRecord)) :
    (mm.map fun m => m.map F).getD seg [] = (mm.getD seg []).map F := by
  by_cases h : seg < mm.length
  · rw [getD_of_lt _ _ _ (by simpa using h), getD_of_lt _ _ _ h,
      List.getElem_map]
  · have h2 : mm.length ≤ seg := not_lt.mp h
    rw [List.getD_eq_getElem?_getD, List.getD_eq_getElem?_getD,
      List.getElem?_eq_none (by simpa using h2), List.getElem?_eq_none h2]
    simp

theorem chunk_column_eq (recs : List NcsRecord) (i0 i1 : Nat) (h01 : i0 ≤ i1)
    (hlen : i1 ≤ recs.length * BLOCK_SIZE)
    (hsamp : ∀ rec ∈ recs, rec.samples.length = BLOCK_SIZE) :
    listSlice (((listSlice recs (i0 / BLOCK_SIZE) (i1 / BLOCK_SIZE + 1)).map
      NcsRecord.samples).flatten) (i0 % 512) (i0 % 512 + (i1 - i0)) =
    (List.range (i1 - i0)).map fun t =>
      (((listSlice recs (i0 / BLOCK_SIZE) (i1 / BLOCK_SIZE + 1)).map
        NcsRecord.samples).flatten).getD (i0 % 512 + t) 0 := by
  have hsub : ∀ rec ∈ listSlice recs (i0 / BLOCK_SIZE) (i1 / BLOCK_SIZE + 1),
      rec.samples.length = BLOCK_SIZE :=
    fun rec hrec => hsamp rec (listSlice_subset recs _ _ rec hrec)
  have hflat := flatten_map_samples_length _ hsub
  have hslen := listSlice_length recs (i0 / BLOCK_SIZE) (i1 / BLOCK_SIZE + 1)
  have hb : i0 % 512 + (i1 - i0) ≤
      (((listSlice recs (i0 / BLOCK_SIZE) (i1 / BLOCK_SIZE + 1)).map
        NcsRecord.samples).flatten).length := by
    rw [hflat, hslen]
    simp only [BLOCK_SIZE] at hlen ⊢
    omega
  have heq := listSlice_eq_range_map _ (i0 % 512) (i0 % 512 + (i1 - i0))
    (0 : Int) (by omega) hb
  rw [show i0 % 512 + (i1 - i0) - i0 % 512 = i1 - i0 from by omega] at heq
  exact heq

/-- C1: for every segment, sample range `[i_start, i_stop)` within the
per-channel record data (`i_start ≤ i_stop ≤ record count × BLOCK_SIZE`) and
every list of requested channels present in the dataset, the chunked read
returns one column per requested channel in caller order, each of length
`i_stop − i_start`, and column `j` holds exactly positions
`[i_start mod 512, i_start mod 512 + (i_stop − i_start))` of the
concatenation, in record order, of the full fixed 512-sample payloads of that
channel's records `[i_start / BLOCK_SIZE, i_stop / BLOCK_SIZE + 1)` in the
segment — independent of every record's valid-sample count `nb_valid`. -/
theorem c1_chunk_read (r : Reader) (seg_index i_start i_stop : Nat)
    (channel_indexes : List Nat) (h01 : i_start ≤ i_stop)
    (hch : ∀ k ∈ channel_indexes, k < r.signal_channels.length)
    (hdata : ∀ k ∈ channel_indexes,
      i_stop ≤ (lookupChan (r.sigs_memmap.getD seg_index [])
        ((r.signal_channels.getD k default).id)).length * BLOCK_SIZE ∧
      ∀ rec ∈ lookupChan (r.sigs_memmap.getD seg_index [])
        ((r.signal_channels.getD k default).id),
        rec.samples.length = BLOCK_SIZE) :
    (get_analogsignal_chunk r seg_index (some i_start) (some i_stop)
      channel_indexes).length = channel_indexes.length ∧
    (∀ col ∈ get_analogsignal_chunk r seg_index (some i_start) (some i_stop)
      channel_indexes, col.length = i_stop - i_start) ∧
    (∀ j, j < channel_indexes.length →
      (get_analogsignal_chunk r seg_index (some i_start) (some i_stop)
        channel_indexes).getD j [] =
      (List.range (i_stop - i_start)).map fun t =>
        (((listSlice (lookupChan (r.sigs_memmap.getD seg_index [])
          ((r.signal_channels.getD (channel_indexes.getD j 0) default).id))
          (i_start / BLOCK_SIZE) (i_stop / BLOCK_SIZE + 1)).map
          NcsRecord.samples).flatten).getD (i_start % 512 + t) 0) ∧
    (∀ f : NcsRecord → Nat,
      get_analogsignal_chunk
        { r with sigs_memmap := r.sigs_memmap.map fun m => m.map fun q =>
            (q.1, q.2.map fun rec => { rec with nb_valid := f rec }) }
        seg_index (some i_start) (some i_stop) channel_indexes =
      get_analogsignal_chunk r seg_index (some i_start) (some i_stop)
        channel_indexes) := by
  refine ⟨?_, ?_, ?_, ?_⟩
  · simp [get_analogsignal_chunk]
  · intro col hcol
    simp only [get_analogsignal_chunk, Option.getD_some, List.mem_map] at hcol
    obtain ⟨cid, hcid, rfl⟩ := hcol
    obtain ⟨k, hk, rfl⟩ := hcid
    rw [chunk_column_eq _ i_start i_stop h01 (hdata k hk).1 (hdata k hk).2]
    simp
  · intro j hj
    simp only [get_analogsignal_chunk, Option.getD_some]
    have hj2 : j < ((channel_indexes.map fun k =>
        (r.signal_channels.getD k default).id).map fun chan_id =>
        listSlice (((listSlice (lookupChan (r.sigs_memmap.getD seg_index [])
          chan_id) (i_start / BLOCK_SIZE) (i_stop / BLOCK_SIZE + 1)).map
          NcsRecord.samples).flatten) (i_start % 512)
          (i_start % 512 + (i_stop - i_start))).length := by
      simpa using hj
    rw [getD_of_lt _ _ _ hj2, List.getElem_map, List.getElem_map,
      getD_of_lt _ _ _ hj]
    exact chunk_column_eq _ i_start i_stop h01
      (hdata _ (List.getElem_mem _)).1 (hdata _ (List.getElem_mem _)).2
  · intro f
    simp only [get_analogsignal_chunk, Option.getD_some]
    apply List.map_congr_left
    intro cid _
    rw [getD_map_nested r.sigs_memmap seg_index
      (fun q => (q.1, q.2.map fun rec => { rec with nb_valid := f rec }))]
    rw [lookupChan_map _ cid
      (List.map fun rec => { rec with nb_valid := f rec }) rfl]
    rw [listSlice_map]
    rw [List.map_map]
    rw [show NcsRecord.samples ∘ (fun rec => { rec with nb_valid := f rec }) =
      NcsRecord.samples from funext fun rec => rfl]

set_option maxRecDepth 4000 in
/-- C1 (witness): reading samples `[5, 600)` of a one-channel segment of two
512-sample records yields one column of 595 samples. -/
theorem c1_witness :
    (get_analogsignal_chunk
      ⟨[⟨"ch0", 7, "mV", 1, 0⟩], [1024],
       [[(7, [⟨0, 7, 32000, 512, List.replicate 512 0⟩,
              ⟨16000, 7, 32000, 512, List.replicate 512 0⟩])]]⟩
      0 (some 5) (some 600) [0]).length = 1 ∧
    ∀ col ∈ get_analogsignal_chunk
      ⟨[⟨"ch0", 7, "mV", 1, 0⟩], [1024],
       [[(7, [⟨0, 7, 32000, 512, List.replicate 512 0⟩,
              ⟨16000, 7, 32000, 512, List.replicate 512 0⟩])]]⟩
      0 (some 5) (some 600) [0], col.length = 595 := by
  have h := c1_chunk_read
    ⟨[⟨"ch0", 7, "mV", 1, 0⟩], [1024],
     [[(7, [⟨0, 7, 32000, 512, List.replicate 512 0⟩,
            ⟨16000, 7, 32000, 512, List.replicate 512 0⟩])]]⟩
    0 5 600 [0] (by omega)
    (by
      intro k hk
      have hk0 : k = 0 := by simpa using hk
      subst hk0
      show 0 < 1
      omega)
    (by
      intro k hk
      have hk0 : k = 0 := by simpa using hk
      subst hk0
      have hlook : lookupChan
          (([[(7, [(⟨0, 7, 32000, 512, List.replicate 512 0⟩ : NcsRecord),
              ⟨16000, 7, 32000, 512, List.replicate 512 0⟩])]] :
            List (List (Nat × List NcsRecord))).getD 0 [])
          ((([⟨"ch0", 7, "mV", 1, 0⟩] : List SigChannel).getD 0 default).id) =
          [⟨0, 7, 32000, 512, List.replicate 512 0⟩,
           ⟨16000, 7, 32000, 512, List.replicate 512 0⟩] := rfl
      rw [hlook]
      constructor
      · show (600 : Nat) ≤ 2 * BLOCK_SIZE
        norm_num [BLOCK_SIZE]
      · intro rec hrec
        rcases List.mem_cons.mp hrec with h1 | h1
        · subst h1
          simp [BLOCK_SIZE]
        · have h2 : rec = ⟨16000, 7, 32000, 512, List.replicate 512 0⟩ := by
            simpa using h1
          subst h2
          simp [BLOCK_SIZE])
  exact ⟨h.1, h.2.1⟩
